import Mathlib

/-
Verification of the qt-web-extractor job-dispatch and page-lifecycle core.

The definitions below are a shallow embedding of the Python sources
src/qt_web_extractor/extractor.py and src/qt_web_extractor/server.py.
Engine-side effects (Qt WebEngine callbacks, timers, the PDF engine, the
HEAD request) are modelled as explicit events/oracles delivered to pure
step functions; machine state becomes explicit record passing.
-/

set_option maxRecDepth 8000

namespace QtWeb

/-- Embeds `_ExtractionResult` (extractor.py): five string fields, each
defaulting to the empty string. -/
structure ExtractionResult where
  url : String := ""
  title : String := ""
  text : String := ""
  html : String := ""
  error : String := ""
  deriving Repr, DecidableEq

/-- The advisory error attached on the timeout path of `_WebPage._extract_content`. -/
def timeoutErrorMsg : String := "Timed out (partial content may be available)"

/-- The advisory error attached when no successful load was seen
(`_WebPage._extract_content`). -/
def loadFailErrorMsg : String := "Page load reported failure (content may be incomplete)"

/-- The synchronous accessors `self.title()` and `self.url().toString()` of the
rendering engine, valid at any time during a load. -/
structure PageEnv where
  pageTitle : String
  pageUrl : String
  deriving Repr, DecidableEq

/-- State of one `_WebPage`: its `_result`, the `_settled` and `_load_ok` flags,
whether each single-shot timer is currently running, and how many `toPlainText`
and `toHtml` callbacks are outstanding. -/
structure PageState where
  result : ExtractionResult
  settled : Bool
  load_ok : Bool
  stabilityActive : Bool
  timeoutActive : Bool
  pendingText : Nat
  pendingHtml : Nat
  deriving Repr, DecidableEq

/-- An asynchronous delivery to the page: a `loadFinished` signal, one of the two
single-shot timers firing, or an extraction callback answering. -/
inductive PEvent where
  | loadFinished (ok : Bool)
  | stabilityFire
  | timeoutFire
  | textReady (t : String)
  | htmlReady (h : String)
  deriving Repr, DecidableEq

/-- An observable action of the page: an asynchronous engine request
(`toPlainText` / `toHtml`) or the `extraction_done` emission. -/
inductive PAction where
  | reqText
  | reqHtml
  | emitDone (r : ExtractionResult)
  deriving Repr, DecidableEq

/-- Embeds `_WebPage.__init__` followed by `start_loading(url)`: fresh result
holding the submitted url, flags clear, the load-timeout timer started, the
settle timer not yet started, no callbacks outstanding. -/
def startState (url : String) : PageState :=
  { result := { url := url }
    settled := false
    load_ok := false
    stabilityActive := false
    timeoutActive := true
    pendingText := 0
    pendingHtml := 0 }

/-- Embeds `_WebPage._extract_content(timed_out)`: guarded by `_settled`; stores
the engine title and current url, issues the asynchronous `toPlainText` request,
and attaches the advisory error (the timeout message when `timed_out`, otherwise
the load-failure message when no successful load was seen, otherwise unchanged). -/
def extractContent (env : PageEnv) (s : PageState) (timedOut : Bool) :
    PageState × List PAction :=
  if s.settled then (s, [])
  else
    ({ s with
        result := { s.result with
          title := env.pageTitle
          url := env.pageUrl
          error :=
            if timedOut then timeoutErrorMsg
            else if !s.load_ok then loadFailErrorMsg
            else s.result.error }
        pendingText := s.pendingText + 1 },
      [PAction.reqText])

/-- Embeds `_WebPage._finish`: set `_settled`, stop both timers, emit the result
on `extraction_done`. -/
def finishPage (s : PageState) : PageState × List PAction :=
  ({ s with settled := true, timeoutActive := false, stabilityActive := false },
    [PAction.emitDone s.result])

/-- One delivery of an engine callback or timer firing, embedding the `_WebPage`
handlers `_on_load_finished`, the settle timer's `_extract_content`, `_on_timeout`,
`_on_text_ready` and `_on_html_ready`. A single-shot timer firing clears its own
running flag, and a `toPlainText`/`toHtml` callback consumes its outstanding
request, before the handler's `_settled` guard is consulted. -/
def pageStep (env : PageEnv) (s : PageState) : PEvent → PageState × List PAction
  | .loadFinished ok =>
      if s.settled then (s, [])
      else ({ s with load_ok := s.load_ok || ok, stabilityActive := true }, [])
  | .stabilityFire =>
      extractContent env { s with stabilityActive := false } false
  | .timeoutFire =>
      let s1 := { s with timeoutActive := false }
      if s1.settled then (s1, [])
      else extractContent env { s1 with stabilityActive := false } true
  | .textReady t =>
      let s1 := { s with pendingText := s.pendingText - 1 }
      if s1.settled then (s1, [])
      else
        ({ s1 with
            result := { s1.result with text := t }
            pendingHtml := s1.pendingHtml + 1 },
          [PAction.reqHtml])
  | .htmlReady h =>
      let s1 := { s with pendingHtml := s.pendingHtml - 1 }
      if s1.settled then (s1, [])
      else finishPage { s1 with result := { s1.result with html := h } }

/-- Final state after delivering a sequence of events. -/
def runPage (env : PageEnv) (s : PageState) : List PEvent → PageState
  | [] => s
  | e :: es => runPage env (pageStep env s e).1 es

/-- All actions (engine requests and `extraction_done` emissions) of a run,
in order of occurrence. -/
def runActions (env : PageEnv) (s : PageState) : List PEvent → List PAction
  | [] => []
  | e :: es => (pageStep env s e).2 ++ runActions env (pageStep env s e).1 es

/-- Whether Qt can deliver event `e` in state `s`: a single-shot timer fires only
while running, and an extraction callback only answers an outstanding request.
`loadFinished` may fire any number of times (script-driven redirects re-fire it). -/
def allowedEvent (s : PageState) : PEvent → Bool
  | .loadFinished _ => true
  | .stabilityFire => s.stabilityActive
  | .timeoutFire => s.timeoutActive
  | .textReady _ => decide (0 < s.pendingText)
  | .htmlReady _ => decide (0 < s.pendingHtml)

/-- Whether a whole event sequence is deliverable from state `s`. -/
def validEvents (env : PageEnv) (s : PageState) : List PEvent → Bool
  | [] => true
  | e :: es => allowedEvent s e && validEvents env (pageStep env s e).1 es

/-- The results emitted on `extraction_done` within an action list. -/
def emitsOf (acts : List PAction) : List ExtractionResult :=
  acts.filterMap fun a =>
    match a with
    | .emitDone r => some r
    | _ => none

/-! Dispatcher model (server.py `serve` / `poll_queue`): the HTTP handler threads
push `_ExtractRequest`s (or the `None` poison pill) onto a FIFO `queue.Queue`; a
repeating 50 ms Qt timer on the engine thread invokes `poll_queue`, which pops
at most one item and, for a request, calls `extractor.extract` /
`extractor.extract_pdf`. `extract` blocks in a nested `QEventLoop`
(extractor.py:264) that keeps dispatching events of the engine thread —
including further firings of the poll timer, against which `poll_queue` has no
re-entrancy guard. A firing delivered inside such a nested loop therefore runs
`poll_queue` again while the outer job is still in flight. The nested
`loop.exec` calls return in LIFO order, so a job's `extract` call (and with it
`req.result = ...; req.done.set()`) completes only after every job started
re-entrantly inside it has completed. Jobs are identified by the
natural-number tag they carry. -/

/-- A dispatcher-level observable: the engine thread begins processing a job
(`extractor.extract` is entered), or finishes it (`extract` returned, result
stored, `req.done.set()`). -/
inductive DEvent where
  | start (id : Nat)
  | jobDone (id : Nat)
  deriving Repr, DecidableEq

/-- An event delivered to the engine thread by whichever event loop is currently
running (the outer `app.exec` or a nested `loop.exec` inside `extract`): a
firing of the repeating 50 ms poll timer, or the completion of the innermost
in-flight job's nested event loop (its page emitted `extraction_done`, `on_done`
quit that loop, `extract` returns). -/
inductive QtEvent where
  | pollFire
  | pageDone
  deriving Repr, DecidableEq

/-- State of `serve`'s polling loop: the FIFO contents (`none` is the poison
pill), whether the poll timer has been stopped, the stack of jobs whose
`extract` call is currently on the engine thread's call stack (innermost
first), and the trace of processing events so far. -/
structure DispatchState where
  pending : List (Option Nat)
  stopped : Bool
  inFlight : List Nat
  trace : List DEvent
  deriving Repr, DecidableEq

/-- Embeds one event delivery to `serve`'s loop. A poll-timer firing runs
`poll_queue`: `get_nowait` pops at most one item; on `queue.Empty` it returns;
the poison pill stops the timer and quits the application; a request starts
`extractor.extract`, pushing the job onto the in-flight stack and blocking in a
nested event loop — during which further deliveries occur. A page completion
ends the innermost nested loop: that `extract` call returns, the result is
stored and `req.done` is set, popping the job off the stack. -/
def dispatchStep (d : DispatchState) : QtEvent → DispatchState
  | .pollFire =>
      if d.stopped then d
      else
        match d.pending with
        | [] => d
        | none :: rest => { d with pending := rest, stopped := true }
        | some j :: rest =>
            { d with pending := rest
                     inFlight := j :: d.inFlight
                     trace := d.trace ++ [DEvent.start j] }
  | .pageDone =>
      match d.inFlight with
      | [] => d
      | j :: rest =>
          { d with inFlight := rest, trace := d.trace ++ [DEvent.jobDone j] }

/-- Deliver a sequence of engine-thread events. -/
def runDispatch (d : DispatchState) : List QtEvent → DispatchState
  | [] => d
  | e :: es => runDispatch (dispatchStep d e) es

/-- Number of start events in a trace. -/
def startCount (tr : List DEvent) : Nat :=
  tr.countP fun e =>
    match e with
    | .start _ => true
    | _ => false

/-- Number of done events in a trace. -/
def doneCount (tr : List DEvent) : Nat :=
  tr.countP fun e =>
    match e with
    | .jobDone _ => true
    | _ => false

/-! Request-handler model (server.py `_Handler`): `_extract_one` enqueues the
request and waits on `req.done` with bound `timeout_s`; `serve` configures
`_Handler.timeout_s = timeout_ms // 1000 + 10`. -/

/-- Embeds `serve`'s handler configuration `timeout_ms // 1000 + 10` (seconds). -/
def handlerTimeoutS (timeout_ms : Nat) : Nat := timeout_ms / 1000 + 10

/-- Outcome of the wait on `req.done` inside `_extract_one`. -/
inductive WaitOutcome where
  | completed (r : ExtractionResult)
  | timedOut
  deriving Repr, DecidableEq

/-- Embeds `_Handler._extract_one`: build the request, push it, wait on
`req.done` with the `timeout_s` bound; `None` when the bound elapses first. -/
def extractOne : WaitOutcome → Option ExtractionResult
  | .completed r => some r
  | .timedOut => none

/-- The reply sent by `do_POST` on the `/extract` path. -/
inductive HttpResponse where
  | json (status : Nat) (body : ExtractionResult)
  | errorJson (status : Nat) (message : String)
  deriving Repr, DecidableEq

/-- Embeds the `/extract` branch of `_Handler.do_POST` after `_extract_one`:
`None` becomes the 504 "extraction timed out" error reply, a result becomes the
200 reply carrying `result.to_dict()`. -/
def extractPostResponse : Option ExtractionResult → HttpResponse
  | none => .errorJson 504 "extraction timed out"
  | some r => .json 200 r

/-! PDF extraction model (extractor.py `QtWebExtractor.extract_pdf`). The Qt PDF
engine and the remote fetch appear as an oracle describing what the try-body's
engine calls do; the try-body itself is embedded in the `Except` monad and the
enclosing handler converts a raised exception into the result's error field. -/

/-- The `QPdfDocument.Status` enumeration. -/
inductive PdfStatus where
  | Null
  | Loading
  | Ready
  | StatusError
  deriving Repr, DecidableEq

/-- The Python `.name` attribute of a `QPdfDocument.Status` member. -/
def statusName : PdfStatus → String
  | .Null => "Null"
  | .Loading => "Loading"
  | .Ready => "Ready"
  | .StatusError => "Error"

/-- Oracle for the engine-side effects of `extract_pdf`'s try block: either some
step (the `urlopen`/`read` of a remote source, `QPdfDocument.load`, or a
`getAllText` call) raises with message `msg`, or the document finishes loading
with the given status and per-page texts. -/
inductive PdfOutcome where
  | raises (msg : String)
  | loaded (status : PdfStatus) (pages : List String)
  deriving Repr, DecidableEq

/-- Models `os.path.basename`: the substring after the last slash. -/
def osPathBasename (s : String) : String :=
  String.mk ((s.data.reverse.takeWhile (fun c => c ≠ '/')).reverse)

/-- Embeds the try block of `extract_pdf`: load the document (fetching remote
sources first), fail early when the status is not `Ready`, otherwise join the
per-page texts with a blank-line separator and take the base filename as title.
A raise at any engine step surfaces as `Except.error`. -/
def extractPdfTry (url_or_path : String) (eng : PdfOutcome) :
    Except String ExtractionResult :=
  match eng with
  | .raises msg => .error msg
  | .loaded st pages =>
      if st != PdfStatus.Ready then
        .ok { url := url_or_path, error := "Failed to load PDF: " ++ statusName st }
      else
        .ok { url := url_or_path
              title := osPathBasename url_or_path
              text := String.intercalate "\n\n" pages }

/-- Embeds `QtWebExtractor.extract_pdf`: run the try block; the except clause
converts any raised exception into the advisory error of the result (which
already carries the submitted source), so no exception propagates to the
dispatcher loop. -/
def extract_pdf (url_or_path : String) (eng : PdfOutcome) : ExtractionResult :=
  match extractPdfTry url_or_path eng with
  | .ok r => r
  | .error e => { url := url_or_path, error := e }

/-! PDF detection model (extractor.py `_detect_pdf`), with a model of the
`urllib.parse.urlparse` components it consults (scheme and path). -/

/-- Character class of an URL scheme body, as in CPython urllib. -/
def isSchemeChar (c : Char) : Bool :=
  c.isAlphanum || c = '+' || c = '-' || c = '.'

/-- Split a character list at the first occurrence of any stop character; the
stop character, when found, stays at the head of the second component. -/
def takeUntilAny (stops : List Char) : List Char → List Char × List Char
  | [] => ([], [])
  | c :: cs =>
      if stops.contains c then ([], c :: cs)
      else
        let p := takeUntilAny stops cs
        (c :: p.1, p.2)

/-- Scheme extraction as in CPython `urlsplit`: the prefix before the first
colon, provided it is nonempty, starts with a letter and uses only scheme
characters; the scheme is lowercased. -/
def schemeSplit (cs : List Char) : List Char × List Char :=
  let p := takeUntilAny [':'] cs
  match p.2 with
  | ':' :: after =>
      match p.1 with
      | [] => ([], cs)
      | c0 :: body =>
          if c0.isAlpha && (c0 :: body).all isSchemeChar then
            ((c0 :: body).map Char.toLower, after)
          else ([], cs)
  | _ => ([], cs)

/-- Authority extraction as in CPython `urlsplit`: after a leading `//`, the
netloc runs until the next `/`, `?` or `#`. -/
def netlocSplit : List Char → List Char × List Char
  | '/' :: '/' :: rest => takeUntilAny ['/', '?', '#'] rest
  | cs => ([], cs)

/-- Split at the first occurrence of `c`, dropping the delimiter; when `c` is
absent the second component is empty. -/
def splitOnceChar (c : Char) (cs : List Char) : List Char × List Char :=
  let p := takeUntilAny [c] cs
  match p.2 with
  | _ :: after => (p.1, after)
  | [] => (p.1, [])

/-- The named components of `urllib.parse.urlparse` that `_detect_pdf` reads. -/
structure UrlParts where
  scheme : String
  netloc : String
  path : String
  query : String
  fragment : String
  deriving Repr, DecidableEq

/-- Models `urllib.parse.urlparse` / `urlsplit`: strip unsafe bytes (tab, CR,
LF), split off the scheme and the `//`-introduced authority; an authority
containing `[` without `]` or `]` without `[` raises
`ValueError("Invalid IPv6 URL")`, modelled as `Except.error` (finer
bracketed-host validation of newer CPython is not modelled); then the fragment
and the query are split off and what remains is the path. -/
def urlparse (url : String) : Except String UrlParts :=
  let cs := url.data.filter fun c => !(c = '\t' || c = '\r' || c = '\n')
  let ps := schemeSplit cs
  let pn := netlocSplit ps.2
  if (pn.1.contains '[' && !pn.1.contains ']')
      || (pn.1.contains ']' && !pn.1.contains '[') then
    Except.error "Invalid IPv6 URL"
  else
    let pf := splitOnceChar '#' pn.2
    let pq := splitOnceChar '?' pf.1
    Except.ok
      { scheme := String.mk ps.1
        netloc := String.mk pn.1
        path := String.mk pq.1
        query := String.mk pq.2
        fragment := String.mk pf.2 }

/-- Models Python `str.rstrip("/")`. -/
def pyRstripSlash (s : String) : String :=
  String.mk (s.data.reverse.dropWhile (fun c => c = '/')).reverse

/-- Models Python `str.lower()` (ASCII-adequate for the uses here). -/
def pyLower (s : String) : String :=
  String.mk (s.data.map Char.toLower)

/-- Models Python `str.endswith(pat)`. -/
def pyEndsWith (s pat : String) : Bool :=
  pat.data.reverse.isPrefixOf s.data.reverse

/-- Character-list substring search: does `sub` occur inside `s`? -/
def containsSub : List Char → List Char → Bool
  | [], sub => sub.isEmpty
  | c :: rest, sub => sub.isPrefixOf (c :: rest) || containsSub rest sub

/-- Models the Python substring test `sub in s`. -/
def pyContains (s sub : String) : Bool :=
  containsSub s.data sub.data

/-- Oracle for the HEAD request of `_detect_pdf`: the request either raises, or
returns a response whose Content-Type header is `ct` (empty when absent). -/
inductive HeadOutcome where
  | raises (msg : String)
  | contentType (ct : String)
  deriving Repr, DecidableEq

/-- Embeds `_detect_pdf`: the `urlparse` call sits OUTSIDE the try block, so a
parse-time ValueError propagates to the caller; then the lowercased,
slash-stripped path ending in ".pdf" is a fast path answering true; then a
non-http(s) scheme answers false; else a HEAD request is made, any exception
answering false, and otherwise the response Content-Type is searched for
"application/pdf". -/
def detect_pdf (url : String) (head : HeadOutcome) : Except String Bool :=
  match urlparse url with
  | .error e => .error e
  | .ok parsed =>
      let path := pyLower (pyRstripSlash parsed.path)
      if pyEndsWith path ".pdf" then .ok true
      else if !(parsed.scheme = "http" || parsed.scheme = "https") then .ok false
      else
        match head with
        | .raises _ => .ok false
        | .contentType ct => .ok (pyContains (pyLower ct) "application/pdf")

/-! Model of `QtWebExtractor.extract` (extractor.py): a nested `QEventLoop` is
run while the page processes its deliveries; `on_done` appends each emitted
result to `result_holder` and quits the loop; afterwards the first held result
is returned, with a fallback result when none was ever received. -/

/-- Embeds `QtWebExtractor.extract`: the deliveries `es` are what the event loop
dispatches to the page before `loop.exec` returns. -/
def extract (env : PageEnv) (url : String) (es : List PEvent) : ExtractionResult :=
  match emitsOf (runActions env (startState url) es) with
  | r :: _ => r
  | [] => { url := url, error := "Extraction failed: no result received" }

/-! Supporting lemmas about the page machine. -/

theorem emitsOf_append (a b : List PAction) :
    emitsOf (a ++ b) = emitsOf a ++ emitsOf b := by
  simp [emitsOf, List.filterMap_append]

theorem runPage_cons (env : PageEnv) (s : PageState) (e : PEvent) (es : List PEvent) :
    runPage env s (e :: es) = runPage env (pageStep env s e).1 es := rfl

theorem runActions_cons (env : PageEnv) (s : PageState) (e : PEvent) (es : List PEvent) :
    runActions env s (e :: es)
      = (pageStep env s e).2 ++ runActions env (pageStep env s e).1 es := rfl

theorem runPage_append (env : PageEnv) (a b : List PEvent) :
    ∀ s : PageState, runPage env s (a ++ b) = runPage env (runPage env s a) b := by
  induction a with
  | nil => intro s; rfl
  | cons e a ih => intro s; simp [runPage_cons, ih]

theorem runActions_append (env : PageEnv) (a b : List PEvent) :
    ∀ s : PageState,
      runActions env s (a ++ b)
        = runActions env s a ++ runActions env (runPage env s a) b := by
  induction a with
  | nil => intro s; rfl
  | cons e a ih => intro s; simp [runActions_cons, runPage_cons, ih]

theorem validEvents_append (env : PageEnv) (a b : List PEvent) :
    ∀ s : PageState,
      validEvents env s (a ++ b)
        = (validEvents env s a && validEvents env (runPage env s a) b) := by
  induction a with
  | nil => intro s; simp [validEvents, runPage]
  | cons e a ih =>
      intro s
      simp [validEvents, runPage_cons, ih, Bool.and_assoc]

/-- Once `_settled` is set, every handler returns at its guard: the result is
untouched, no engine request is issued, nothing is emitted, and the flag stays. -/
theorem pageStep_settled (env : PageEnv) (s : PageState) (e : PEvent)
    (h : s.settled = true) :
    (pageStep env s e).1.result = s.result ∧ (pageStep env s e).2 = [] ∧
    (pageStep env s e).1.settled = true := by
  cases e <;> simp [pageStep, extractContent, finishPage, h]

theorem runPage_settled (env : PageEnv) (es : List PEvent) :
    ∀ s : PageState, s.settled = true →
      (runPage env s es).result = s.result ∧ runActions env s es = [] ∧
      (runPage env s es).settled = true := by
  induction es with
  | nil => intro s h; exact ⟨rfl, rfl, h⟩
  | cons e es ih =>
      intro s h
      obtain ⟨h1, h2, h3⟩ := pageStep_settled env s e h
      obtain ⟨i1, i2, i3⟩ := ih (pageStep env s e).1 h3
      refine ⟨?_, ?_, ?_⟩
      · rw [runPage_cons, i1, h1]
      · rw [runActions_cons, h2, i2]; rfl
      · rw [runPage_cons]; exact i3

/-- Per-delivery emission facts: a single delivery emits at most one result, and
whenever it does emit, the machine has just settled and the emitted value is the
machine's result. -/
theorem pageStep_emits (env : PageEnv) (s : PageState) (e : PEvent) :
    (emitsOf (pageStep env s e).2).length ≤ 1 ∧
    (∀ r, r ∈ emitsOf (pageStep env s e).2 →
      (pageStep env s e).1.settled = true ∧ (pageStep env s e).1.result = r) := by
  cases e <;>
    simp only [pageStep, extractContent, finishPage] <;>
    split <;>
    simp_all [emitsOf]

theorem runActions_emits_le (env : PageEnv) (es : List PEvent) :
    ∀ s : PageState, s.settled = false →
      (emitsOf (runActions env s es)).length ≤ 1 := by
  induction es with
  | nil => intro s _; simp [runActions, emitsOf]
  | cons e es ih =>
      intro s _
      rw [runActions_cons, emitsOf_append, List.length_append]
      by_cases hset : (pageStep env s e).1.settled = true
      · have hrest := (runPage_settled env es _ hset).2.1
        have hstep := (pageStep_emits env s e).1
        rw [hrest]
        have hnil : emitsOf ([] : List PAction) = [] := rfl
        rw [hnil]
        simpa using hstep
      · have hnone : emitsOf (pageStep env s e).2 = [] := by
          cases hm : emitsOf (pageStep env s e).2 with
          | nil => rfl
          | cons r t =>
              exact absurd ((pageStep_emits env s e).2 r (by simp [hm])).1 hset
        have hns : (pageStep env s e).1.settled = false := by
          simpa using hset
        have := ih (pageStep env s e).1 hns
        simp [hnone]
        omega

theorem runActions_emit_final (env : PageEnv) (es : List PEvent) :
    ∀ (s : PageState) (r : ExtractionResult), r ∈ emitsOf (runActions env s es) →
      (runPage env s es).settled = true ∧ (runPage env s es).result = r := by
  induction es with
  | nil => intro s r hr; simp [runActions, emitsOf] at hr
  | cons e es ih =>
      intro s r hr
      rw [runActions_cons, emitsOf_append, List.mem_append] at hr
      cases hr with
      | inl h =>
          have h2 := (pageStep_emits env s e).2 r h
          have h3 := runPage_settled env es (pageStep env s e).1 h2.1
          exact ⟨by rw [runPage_cons]; exact h3.2.2, by rw [runPage_cons, h3.1, h2.2]⟩
      | inr h => exact ih (pageStep env s e).1 r h

/-- Claim C2: for every job, `extraction_done` fires at most once; whenever it
fires the job has settled (Done) and the emitted value is the job's final
result, which no later engine callback mutates; and once settled every callback
returns at its `_settled` guard without issuing requests or touching the
result. -/
theorem completion_fires_at_most_once (env : PageEnv) (s : PageState)
    (es : List PEvent) :
    (s.settled = false → (emitsOf (runActions env s es)).length ≤ 1)
  ∧ (s.settled = true →
        runActions env s es = [] ∧ (runPage env s es).result = s.result)
  ∧ (∀ r, r ∈ emitsOf (runActions env s es) →
        (runPage env s es).settled = true ∧ (runPage env s es).result = r) := by
  refine ⟨fun h => runActions_emits_le env es s h, fun h => ?_,
    fun r hr => runActions_emit_final env es s r hr⟩
  obtain ⟨h1, h2, _⟩ := runPage_settled env es s h
  exact ⟨h2, h1⟩

/-- Witness for C2 at a concrete run: the freshly started page is unsettled, and
a complete timeout-path run emits exactly once. -/
theorem completion_fires_at_most_once_witness :
    (startState "http://w").settled = false ∧
    (emitsOf (runActions ⟨"T", "U"⟩ (startState "http://w")
        [PEvent.timeoutFire, PEvent.textReady "x", PEvent.htmlReady "y"])).length ≤ 1 :=
  ⟨rfl, (completion_fires_at_most_once ⟨"T", "U"⟩ (startState "http://w")
      [PEvent.timeoutFire, PEvent.textReady "x", PEvent.htmlReady "y"]).1 rfl⟩

/-- Claim C3 fails on the code: after a successful load the settle timer fires
first and extraction begins (a text request is outstanding, `error` is empty),
yet the load-timeout timer is still running — `_extract_content` does not stop
it, only `_finish` does — so its later firing is a deliverable event that is not
ignored: it re-enters `_extract_content`, overwrites `error` with the timeout
message and issues a second text request. -/
theorem late_timeout_counterexample :
    validEvents ⟨"T", "U"⟩ (startState "http://w")
        [PEvent.loadFinished true, PEvent.stabilityFire, PEvent.timeoutFire] = true
  ∧ (runPage ⟨"T", "U"⟩ (startState "http://w")
        [PEvent.loadFinished true, PEvent.stabilityFire]).pendingText = 1
  ∧ (runPage ⟨"T", "U"⟩ (startState "http://w")
        [PEvent.loadFinished true, PEvent.stabilityFire]).result.error = ""
  ∧ (runPage ⟨"T", "U"⟩ (startState "http://w")
        [PEvent.loadFinished true, PEvent.stabilityFire]).timeoutActive = true
  ∧ (runPage ⟨"T", "U"⟩ (startState "http://w")
        [PEvent.loadFinished true, PEvent.stabilityFire,
         PEvent.timeoutFire]).result.error = timeoutErrorMsg
  ∧ runActions ⟨"T", "U"⟩ (startState "http://w")
        [PEvent.loadFinished true, PEvent.stabilityFire, PEvent.timeoutFire]
      = [PAction.reqText, PAction.reqText] :=
  ⟨rfl, rfl, rfl, rfl, rfl, rfl⟩

/-- Claim C3 (amended): on the timeout-to-Extracting transition the pending
settle timer is cancelled and the timeout error is attached; once the job has
settled (Done) any late firing of either timer is ignored and cannot mutate the
result; but when the settle timer wins, the load-timeout timer is NOT cancelled
at that transition (it is stopped only by `_finish` at Done), so a timeout
firing after extraction began and before Done re-enters the extraction sequence
and overwrites the error field. -/
theorem timer_race_amended (env : PageEnv) (s : PageState) (e : PEvent) :
    (s.settled = false →
        (pageStep env s PEvent.timeoutFire).1.stabilityActive = false
      ∧ (pageStep env s PEvent.timeoutFire).1.result.error = timeoutErrorMsg
      ∧ (pageStep env s PEvent.stabilityFire).1.timeoutActive = s.timeoutActive
      ∧ (s.timeoutActive = true →
          allowedEvent (pageStep env s PEvent.stabilityFire).1 PEvent.timeoutFire = true)
      ∧ (pageStep env s PEvent.timeoutFire).2 = [PAction.reqText])
  ∧ (s.settled = true →
        (pageStep env s e).1.result = s.result ∧ (pageStep env s e).2 = []) := by
  constructor
  · intro h
    refine ⟨?_, ?_, ?_, ?_, ?_⟩ <;>
      simp [pageStep, extractContent, allowedEvent, h]
  · intro h
    obtain ⟨h1, h2, _⟩ := pageStep_settled env s e h
    exact ⟨h1, h2⟩

/-- Witness for the amended C3 at a concrete state: from a freshly started page,
a timeout firing cancels the settle timer and attaches the timeout error. -/
theorem timer_race_amended_witness :
    (startState "http://w").settled = false ∧
    (pageStep ⟨"T", "U"⟩ (startState "http://w") PEvent.timeoutFire).1.result.error
      = timeoutErrorMsg :=
  ⟨rfl, ((timer_race_amended ⟨"T", "U"⟩ (startState "http://w")
      PEvent.timeoutFire).1 rfl).2.1⟩

/-- Effect of a burst of `loadFinished` signals on an unsettled page: `_load_ok`
records whether any signal carried success, the settle timer is (re)started by
each signal, nothing is requested or emitted, and every such delivery is
allowed. -/
theorem loadChain (env : PageEnv) (lfs : List Bool) :
    ∀ s : PageState, s.settled = false →
      runPage env s (lfs.map PEvent.loadFinished)
        = { s with load_ok := s.load_ok || lfs.any (fun b => b),
                   stabilityActive := s.stabilityActive || !lfs.isEmpty }
    ∧ runActions env s (lfs.map PEvent.loadFinished) = []
    ∧ validEvents env s (lfs.map PEvent.loadFinished) = true := by
  induction lfs with
  | nil =>
      intro s _
      refine ⟨?_, rfl, rfl⟩
      simp [runPage]
  | cons b bs ih =>
      intro s h
      have hstep : pageStep env s (PEvent.loadFinished b)
          = ({ s with load_ok := s.load_ok || b, stabilityActive := true }, []) := by
        simp [pageStep, h]
      obtain ⟨i1, i2, i3⟩ :=
        ih { s with load_ok := s.load_ok || b, stabilityActive := true } h
      refine ⟨?_, ?_, ?_⟩
      · rw [List.map_cons, runPage_cons, hstep, i1]
        simp [Bool.or_assoc]
      · rw [List.map_cons, runActions_cons, hstep, i2]
        rfl
      · rw [List.map_cons, validEvents, hstep]
        simpa [allowedEvent] using i3

/-- Claim C4: the advisory error attached at extraction time is selected by
`_extract_content`'s precedence: when the load-timeout elapsed before a
load-finished-driven extraction, the error is exactly the timeout message —
regardless of any load-failure — and the job still proceeds through text and
html callbacks to Done, emitting a fully populated result carrying that error;
when the settle timer drives extraction and no load-finished(true) ever
arrived (after at least one load-finished(false)), the error is exactly the
load-failure message; when a load-finished(true) arrived, no error is
attached. -/
theorem advisory_error_selection (env : PageEnv) (u : String) (lfs : List Bool)
    (t h : String) :
    (runPage env (startState u)
        (lfs.map PEvent.loadFinished ++ [PEvent.timeoutFire])).result.error
      = timeoutErrorMsg
  ∧ (lfs.any (fun b => b) = false →
        (runPage env (startState u)
          (lfs.map PEvent.loadFinished ++ [PEvent.stabilityFire])).result.error
        = loadFailErrorMsg)
  ∧ (lfs.any (fun b => b) = true →
        (runPage env (startState u)
          (lfs.map PEvent.loadFinished ++ [PEvent.stabilityFire])).result.error
        = "")
  ∧ (lfs ≠ [] → validEvents env (startState u)
        (lfs.map PEvent.loadFinished ++ [PEvent.stabilityFire]) = true)
  ∧ (runPage env (startState u)
        (lfs.map PEvent.loadFinished
          ++ [PEvent.timeoutFire, PEvent.textReady t, PEvent.htmlReady h])).settled
      = true
  ∧ emitsOf (runActions env (startState u)
        (lfs.map PEvent.loadFinished
          ++ [PEvent.timeoutFire, PEvent.textReady t, PEvent.htmlReady h]))
      = [{ url := env.pageUrl, title := env.pageTitle, text := t, html := h,
           error := timeoutErrorMsg }]
  ∧ validEvents env (startState u)
        (lfs.map PEvent.loadFinished
          ++ [PEvent.timeoutFire, PEvent.textReady t, PEvent.htmlReady h])
      = true := by
  obtain ⟨h1, h2, h3⟩ := loadChain env lfs (startState u) rfl
  refine ⟨?_, ?_, ?_, ?_, ?_, ?_, ?_⟩
  · rw [runPage_append, h1]
    simp [runPage, pageStep, extractContent, startState]
  · intro hany
    rw [runPage_append, h1]
    simp [runPage, pageStep, extractContent, startState, hany]
  · intro hany
    rw [runPage_append, h1]
    simp [runPage, pageStep, extractContent, startState, hany]
  · intro hne
    rw [validEvents_append, h3, h1]
    cases lfs with
    | nil => exact absurd rfl hne
    | cons b bs =>
        simp [validEvents, allowedEvent, startState, pageStep, extractContent]
  · rw [runPage_append, h1]
    simp [runPage, pageStep, extractContent, finishPage, startState]
  · rw [runActions_append, h1, h2]
    simp [runActions, runPage, pageStep, extractContent, finishPage, startState,
      emitsOf]
  · rw [validEvents_append, h3, h1]
    simp [validEvents, allowedEvent, startState, pageStep, extractContent]

/-- Witness for C4 at a concrete input: a single load-finished(false) signal
followed by the settle timer attaches exactly the load-failure message. -/
theorem advisory_error_selection_witness :
    ([false] : List Bool).any (fun b => b) = false ∧
    (runPage ⟨"T", "U"⟩ (startState "http://w")
        ([false].map PEvent.loadFinished ++ [PEvent.stabilityFire])).result.error
      = loadFailErrorMsg :=
  ⟨rfl, (advisory_error_selection ⟨"T", "U"⟩ "http://w" [false] "x" "y").2.1 rfl⟩

/-- Claim C1 (code bug): the spec's serialization contract — J2 begins only
after J1 reaches Done, processing never overlaps — is the clear intent of the
queue/dispatcher design, and holds when each poll firing's job completes before
the next firing (final conjunct: the serial schedule gives the FIFO trace). But
`poll_queue` is re-entrant: `extractor.extract` blocks in a nested `QEventLoop`
that keeps dispatching the repeating 50 ms poll timer, so with two queued
requests a firing delivered during job 1's nested loop starts job 2 before
job 1 is done. The resulting trace is start 1, start 2, done 2, done 1 — job 2
starts at position 1, before job 1's done at position 3; after the two firings
both jobs are in flight at once (two live pages on the shared engine), and the
first two trace events are two starts with no done. -/
theorem dispatcher_overlap_bug :
    (runDispatch ⟨[some 1, some 2, none], false, [], []⟩
        [QtEvent.pollFire, QtEvent.pollFire, QtEvent.pageDone, QtEvent.pageDone]).trace
      = [DEvent.start 1, DEvent.start 2, DEvent.jobDone 2, DEvent.jobDone 1]
  ∧ ((runDispatch ⟨[some 1, some 2, none], false, [], []⟩
        [QtEvent.pollFire, QtEvent.pollFire, QtEvent.pageDone, QtEvent.pageDone]).trace)[1]?
      = some (DEvent.start 2)
  ∧ ((runDispatch ⟨[some 1, some 2, none], false, [], []⟩
        [QtEvent.pollFire, QtEvent.pollFire, QtEvent.pageDone, QtEvent.pageDone]).trace)[3]?
      = some (DEvent.jobDone 1)
  ∧ (runDispatch ⟨[some 1, some 2, none], false, [], []⟩
        [QtEvent.pollFire, QtEvent.pollFire]).inFlight = [2, 1]
  ∧ startCount ((runDispatch ⟨[some 1, some 2, none], false, [], []⟩
        [QtEvent.pollFire, QtEvent.pollFire, QtEvent.pageDone, QtEvent.pageDone]).trace.take 2)
      = 2
  ∧ doneCount ((runDispatch ⟨[some 1, some 2, none], false, [], []⟩
        [QtEvent.pollFire, QtEvent.pollFire, QtEvent.pageDone, QtEvent.pageDone]).trace.take 2)
      = 0
  ∧ (runDispatch ⟨[some 1, some 2, none], false, [], []⟩
        [QtEvent.pollFire, QtEvent.pageDone, QtEvent.pollFire, QtEvent.pageDone]).trace
      = [DEvent.start 1, DEvent.jobDone 1, DEvent.start 2, DEvent.jobDone 2] :=
  ⟨rfl, rfl, rfl, rfl, rfl, rfl, rfl⟩


/-- Claim C5: for every configured timeout, the handler's external wait bound
`timeout_ms // 1000 + 10` seconds is strictly larger, in milliseconds, than the
job's internal load-timeout `timeout_ms`; and when that bound elapses without
completion, `_extract_one` yields `None` and the caller receives the distinct
504 "extraction timed out" failure, never the success reply produced for a
completed job. -/
theorem handler_wait_bound (timeout_ms : Nat) (r : ExtractionResult) :
    timeout_ms < 1000 * handlerTimeoutS timeout_ms
  ∧ extractPostResponse (extractOne WaitOutcome.timedOut)
      = HttpResponse.errorJson 504 "extraction timed out"
  ∧ extractPostResponse (extractOne (WaitOutcome.completed r))
      = HttpResponse.json 200 r
  ∧ HttpResponse.errorJson 504 "extraction timed out" ≠ HttpResponse.json 200 r := by
  refine ⟨?_, rfl, rfl, by simp⟩
  unfold handlerTimeoutS
  omega

/-- Witness for C5 at the default configuration: a 30000 ms timeout gives a
40 s (40000 ms) external wait bound, strictly larger. -/
theorem handler_wait_bound_witness :
    (30000 : Nat) < 1000 * handlerTimeoutS 30000 :=
  (handler_wait_bound 30000 {}).1

/-! Supporting lemmas for the text-then-html chaining order. -/

theorem getAppendLeft {α : Type} {l1 l2 : List α} {i : Nat} (h : i < l1.length) :
    (l1 ++ l2)[i]? = l1[i]? := by
  rw [List.getElem?_append, if_pos h]

theorem getSomeLt {α : Type} {l : List α} {i : Nat} {a : α} (h : l[i]? = some a) :
    i < l.length := by
  by_contra hc
  rw [List.getElem?_eq_none (by omega)] at h
  exact Option.noConfusion h

theorem exists_reqText_append (acc l : List PAction)
    (h : ∃ j : Nat, acc[j]? = some PAction.reqText) :
    ∃ j : Nat, (acc ++ l)[j]? = some PAction.reqText := by
  obtain ⟨j, hj⟩ := h
  exact ⟨j, by rw [getAppendLeft (getSomeLt hj)]; exact hj⟩

theorem inv2_append_single (acc : List PAction) (a : PAction)
    (h2 : ∀ i : Nat, acc[i]? = some PAction.reqHtml →
      ∃ j : Nat, j < i ∧ acc[j]? = some PAction.reqText)
    (ha : a = PAction.reqHtml → ∃ j : Nat, acc[j]? = some PAction.reqText) :
    ∀ i : Nat, (acc ++ [a])[i]? = some PAction.reqHtml →
      ∃ j : Nat, j < i ∧ (acc ++ [a])[j]? = some PAction.reqText := by
  intro i hi
  rcases lt_trichotomy i acc.length with hlt | heq | hgt
  · obtain ⟨j, hj, hjt⟩ := h2 i (by rwa [getAppendLeft hlt] at hi)
    exact ⟨j, hj, by rw [getAppendLeft (lt_trans hj hlt)]; exact hjt⟩
  · rw [heq, List.getElem?_concat_length] at hi
    obtain ⟨j, hjt⟩ := ha (Option.some.inj hi)
    have hjlt := getSomeLt hjt
    exact ⟨j, by omega, by rw [getAppendLeft hjlt]; exact hjt⟩
  · rw [List.getElem?_eq_none (by simp; omega)] at hi
    exact Option.noConfusion hi

/-- Shape of a single delivery's output, given that the delivery was allowed:
it issues no request (or only the completion emission) without raising the
outstanding-text count; or it issues exactly one `toPlainText` request and
raises that count by one; or it issues exactly one `toHtml` request, which
happens only while a `toPlainText` request is outstanding. -/
theorem pageStep_shape (env : PageEnv) (s : PageState) (e : PEvent)
    (hal : allowedEvent s e = true) :
    (((pageStep env s e).2 = [] ∨ (∃ r, (pageStep env s e).2 = [PAction.emitDone r]))
        ∧ (pageStep env s e).1.pendingText ≤ s.pendingText)
  ∨ ((pageStep env s e).2 = [PAction.reqText]
        ∧ (pageStep env s e).1.pendingText = s.pendingText + 1)
  ∨ ((pageStep env s e).2 = [PAction.reqHtml] ∧ 0 < s.pendingText
        ∧ (pageStep env s e).1.pendingText ≤ s.pendingText) := by
  cases e <;>
    simp only [pageStep, extractContent, finishPage, allowedEvent,
      decide_eq_true_eq] at hal ⊢ <;>
    split <;> simp_all

theorem chainOrderAux (env : PageEnv) :
    ∀ (es : List PEvent) (s : PageState) (acc : List PAction),
      (0 < s.pendingText → ∃ j : Nat, acc[j]? = some PAction.reqText) →
      (∀ i : Nat, acc[i]? = some PAction.reqHtml →
        ∃ j : Nat, j < i ∧ acc[j]? = some PAction.reqText) →
      validEvents env s es = true →
      ∀ i : Nat, (acc ++ runActions env s es)[i]? = some PAction.reqHtml →
        ∃ j : Nat, j < i ∧ (acc ++ runActions env s es)[j]? = some PAction.reqText := by
  intro es
  induction es with
  | nil =>
      intro s acc h1 h2 _ i
      simpa [runActions] using h2 i
  | cons e es ih =>
      intro s acc h1 h2 hv
      rw [validEvents, Bool.and_eq_true] at hv
      obtain ⟨ha, hv2⟩ := hv
      have hshape := pageStep_shape env s e ha
      rw [runActions_cons]
      intro i
      rw [← List.append_assoc]
      refine ih (pageStep env s e).1 (acc ++ (pageStep env s e).2) ?_ ?_ hv2 i
      · -- outstanding text request implies a recorded text request
        rcases hshape with ⟨hact, hpt⟩ | ⟨hact, hpt⟩ | ⟨hact, hpos, hpt⟩
        · intro hp
          exact exists_reqText_append acc _ (h1 (by omega))
        · intro _
          rw [hact]
          exact ⟨acc.length, List.getElem?_concat_length acc _⟩
        · intro hp
          exact exists_reqText_append acc _ (h1 (by omega))
      · -- every recorded html request is preceded by a text request
        rcases hshape with ⟨hact, hpt⟩ | ⟨hact, hpt⟩ | ⟨hact, hpos, hpt⟩
        · rcases hact with hnil | ⟨r, hr⟩
          · simpa [hnil] using h2
          · rw [hr]
            exact inv2_append_single acc _ h2 (fun hcontra => by
              exact absurd hcontra (by simp))
        · rw [hact]
          exact inv2_append_single acc _ h2 (fun hcontra => by
            exact absurd hcontra (by simp))
        · rw [hact]
          exact inv2_append_single acc _ h2 (fun _ => h1 hpos)

/-- Claim C6: in page mode the extraction phase requests plain text first and
html second, strictly chained. In any deliverable run, every `toHtml` request
in the action log is preceded by an earlier `toPlainText` request (so the two
are never issued in the reverse order, and the html request is never issued
before a text request is in flight); moreover the text callback stores the
text and is exactly what issues the html request, the html callback stores the
html and finalizes the job (emitting the completed result), and extraction
entry — by settle timer or by timeout — issues exactly the text request. -/
theorem extraction_chain_order (env : PageEnv) (u : String) (es : List PEvent)
    (hv : validEvents env (startState u) es = true) :
    (∀ i : Nat, (runActions env (startState u) es)[i]? = some PAction.reqHtml →
       ∃ j : Nat, j < i ∧ (runActions env (startState u) es)[j]? = some PAction.reqText)
  ∧ (∀ (s : PageState) (t : String), s.settled = false →
       (pageStep env s (PEvent.textReady t)).1.result.text = t
     ∧ (pageStep env s (PEvent.textReady t)).2 = [PAction.reqHtml])
  ∧ (∀ (s : PageState) (ht : String), s.settled = false →
       (pageStep env s (PEvent.htmlReady ht)).1.result.html = ht
     ∧ (pageStep env s (PEvent.htmlReady ht)).1.settled = true
     ∧ (pageStep env s (PEvent.htmlReady ht)).2
         = [PAction.emitDone ((pageStep env s (PEvent.htmlReady ht)).1.result)])
  ∧ (∀ s : PageState, s.settled = false →
       (pageStep env s PEvent.stabilityFire).2 = [PAction.reqText]
     ∧ (pageStep env s PEvent.timeoutFire).2 = [PAction.reqText]) := by
  refine ⟨?_, ?_, ?_, ?_⟩
  · have h := chainOrderAux env es (startState u) []
      (fun hk => absurd hk (by simp [startState]))
      (fun i hi => by simp at hi) hv
    simpa using h
  · intro s t hs
    constructor <;> simp [pageStep, hs]
  · intro s ht hs
    refine ⟨?_, ?_, ?_⟩ <;> simp [pageStep, finishPage, hs]
  · intro s hs
    constructor <;> simp [pageStep, extractContent, hs]

/-- Witness for C6 at a concrete run: the normal load/settle/text/html run is
deliverable, and its single html request (log position 1) is preceded by the
text request at position 0. -/
theorem extraction_chain_order_witness :
    ∃ j : Nat, j < 1 ∧
      (runActions ⟨"T", "U"⟩ (startState "http://w")
        [PEvent.loadFinished true, PEvent.stabilityFire,
         PEvent.textReady "x", PEvent.htmlReady "y"])[j]? = some PAction.reqText :=
  (extraction_chain_order ⟨"T", "U"⟩ "http://w"
      [PEvent.loadFinished true, PEvent.stabilityFire,
       PEvent.textReady "x", PEvent.htmlReady "y"] rfl).1 1 rfl

/-- Claim C7: every exception raised inside `extract_pdf`'s try block (remote
fetch failure, engine error) surfaces as `Except.error` of the try body and is
caught by the enclosing handler, which converts it into the result's advisory
error string — so `extract_pdf` always returns a plain result, never
propagating an exception to the dispatcher loop; and when the document fails
to reach `Ready` status the returned result has the status error set while
`text` and `html` are both empty. -/
theorem extract_pdf_never_propagates (src msg : String) (st : PdfStatus)
    (pages : List String) :
    extractPdfTry src (PdfOutcome.raises msg) = Except.error msg
  ∧ extract_pdf src (PdfOutcome.raises msg)
      = { url := src, title := "", text := "", html := "", error := msg }
  ∧ (st ≠ PdfStatus.Ready →
        (extract_pdf src (PdfOutcome.loaded st pages)).error
          = "Failed to load PDF: " ++ statusName st
      ∧ (extract_pdf src (PdfOutcome.loaded st pages)).text = ""
      ∧ (extract_pdf src (PdfOutcome.loaded st pages)).html = ""
      ∧ (extract_pdf src (PdfOutcome.loaded st pages)).error ≠ "") := by
  refine ⟨rfl, rfl, fun hst => ?_⟩
  have hne : (st != PdfStatus.Ready) = true := by
    simpa using hst
  refine ⟨?_, ?_, ?_, ?_⟩ <;>
    simp [extract_pdf, extractPdfTry, hne]
  intro hcontra
  have hlen := congrArg String.length hcontra
  rw [String.length_append] at hlen
  have h20 : ("Failed to load PDF: ").length = 20 := rfl
  have h0 : ("" : String).length = 0 := rfl
  omega

/-- Witness for C7 at a concrete input: a document stuck in `Error` status
yields the advisory status error with empty text. -/
theorem extract_pdf_never_propagates_witness :
    PdfStatus.StatusError ≠ PdfStatus.Ready ∧
    (extract_pdf "https://e.com/d.pdf"
        (PdfOutcome.loaded PdfStatus.StatusError ["p"])).error
      = "Failed to load PDF: " ++ statusName PdfStatus.StatusError :=
  ⟨by decide,
    ((extract_pdf_never_propagates "https://e.com/d.pdf" "m" PdfStatus.StatusError
        ["p"]).2.2 (by decide)).1⟩

/-- Claim C8: for a successfully loaded PDF, the result carries no error, its
text is the per-page texts joined by a blank-line separator (two newlines),
its title is the base filename of the source, and its html is empty. -/
theorem extract_pdf_success (src : String) (pages : List String) :
    extract_pdf src (PdfOutcome.loaded PdfStatus.Ready pages)
      = { url := src, title := osPathBasename src,
          text := String.intercalate "\n\n" pages, html := "", error := "" }
  ∧ osPathBasename "https://example.com/doc.pdf" = "doc.pdf"
  ∧ String.intercalate "\n\n" ["a", "b", "c"] = "a\n\nb\n\nc" := by
  exact ⟨rfl, rfl, rfl⟩

/-- Claim C9 fails on the code in two ways. (1) The ".pdf"-suffix fast path is
checked BEFORE the scheme check, so a URL with a non-http(s) scheme whose path
ends in ".pdf" returns true — contradicting "for every URL whose scheme is not
http or https it returns false": "ftp://host/doc.pdf" parses with scheme "ftp"
yet `_detect_pdf` answers true under every HEAD-request outcome. (2) The
predicate is not total and can raise: the `urlparse` call sits outside the try
block (which guards only the HEAD request), and for an authority with an
unbalanced bracket — "http://[::1/doc.pdf" — it raises
ValueError("Invalid IPv6 URL"), which propagates out of `_detect_pdf`,
contradicting "total and never raises". -/
theorem detect_pdf_scheme_counterexample :
    urlparse "ftp://host/doc.pdf" = Except.ok
      { scheme := "ftp", netloc := "host", path := "/doc.pdf", query := "",
        fragment := "" }
  ∧ detect_pdf "ftp://host/doc.pdf" (HeadOutcome.raises "network unreachable")
      = Except.ok true
  ∧ detect_pdf "ftp://host/doc.pdf" (HeadOutcome.contentType "text/html")
      = Except.ok true
  ∧ urlparse "http://[::1/doc.pdf" = Except.error "Invalid IPv6 URL"
  ∧ detect_pdf "http://[::1/doc.pdf" (HeadOutcome.raises "network unreachable")
      = Except.error "Invalid IPv6 URL"
  ∧ detect_pdf "http://[::1/doc.pdf" (HeadOutcome.contentType "application/pdf")
      = Except.error "Invalid IPv6 URL" :=
  ⟨rfl, rfl, rfl, rfl, rfl, rfl⟩

/-- Claim C9 (amended): for every URL that the URL parser accepts, `_detect_pdf`
never raises: when the parsed path ends in ".pdf" (case-insensitive, ignoring
trailing slashes) it returns true without consulting the HEAD oracle — this
fast path takes precedence over the scheme check; when the path does not end in
".pdf" and the scheme is not http or https it returns false; and any exception
during the HEAD request yields false rather than propagating. The predicate is
NOT total: when `urlparse` raises (unbalanced bracket in the authority), the
exception propagates out of `_detect_pdf` unchanged, since that call sits
outside the try block. -/
theorem detect_pdf_amended (url : String) (o : HeadOutcome) (m msg : String)
    (p : UrlParts) :
    (urlparse url = Except.ok p →
        (pyEndsWith (pyLower (pyRstripSlash p.path)) ".pdf" = true →
            detect_pdf url o = Except.ok true)
      ∧ (pyEndsWith (pyLower (pyRstripSlash p.path)) ".pdf" = false →
            p.scheme ≠ "http" → p.scheme ≠ "https" →
            detect_pdf url o = Except.ok false)
      ∧ (pyEndsWith (pyLower (pyRstripSlash p.path)) ".pdf" = false →
            detect_pdf url (HeadOutcome.raises m) = Except.ok false))
  ∧ (urlparse url = Except.error msg → detect_pdf url o = Except.error msg) := by
  constructor
  · intro hp
    refine ⟨fun h => ?_, fun h h1 h2 => ?_, fun h => ?_⟩
    · simp [detect_pdf, hp, h]
    · simp [detect_pdf, hp, h, h1, h2]
    · simp only [detect_pdf, hp, h]
      split
      · simp_all
      · split <;> rfl
  · intro he
    simp [detect_pdf, he]

/-- Witness for the amended C9 at concrete inputs: an http URL ending in ".PDF/"
answers true with no dependence on the HEAD outcome; a failing HEAD request
answers false for a non-pdf http URL; and a parse-time exception propagates. -/
theorem detect_pdf_amended_witness :
    urlparse "http://h/a.PDF/" = Except.ok
      { scheme := "http", netloc := "h", path := "/a.PDF/", query := "",
        fragment := "" }
  ∧ detect_pdf "http://h/a.PDF/" (HeadOutcome.raises "down") = Except.ok true
  ∧ detect_pdf "http://h/page" (HeadOutcome.raises "down") = Except.ok false
  ∧ detect_pdf "http://[::1" (HeadOutcome.raises "down")
      = Except.error "Invalid IPv6 URL" :=
  ⟨rfl,
    ((detect_pdf_amended "http://h/a.PDF/" (HeadOutcome.raises "down") "down" "e"
        { scheme := "http", netloc := "h", path := "/a.PDF/", query := "",
          fragment := "" }).1 rfl).1 rfl,
    ((detect_pdf_amended "http://h/page" (HeadOutcome.raises "down") "down" "e"
        { scheme := "http", netloc := "h", path := "/page", query := "",
          fragment := "" }).1 rfl).2.2 rfl,
    (detect_pdf_amended "http://[::1" (HeadOutcome.raises "down") "down"
        "Invalid IPv6 URL"
        { scheme := "", netloc := "", path := "", query := "",
          fragment := "" }).2 rfl⟩

/-- Claim C10: `QtWebExtractor.extract` always returns an `_ExtractionResult`
(total by construction — it never returns null or raises at its interface):
when the event loop exits without the page ever emitting a result, the fallback
result carrying the submitted URL and the error "Extraction failed: no result
received" is returned; and when an emission did occur, the first emitted result
is returned, which is exactly the settled page's final result. -/
theorem extract_total_fallback (env : PageEnv) (url : String) (es : List PEvent) :
    (emitsOf (runActions env (startState url) es) = [] →
        extract env url es
          = { url := url, title := "", text := "", html := "",
              error := "Extraction failed: no result received" })
  ∧ (∀ (r : ExtractionResult) (rest : List ExtractionResult),
        emitsOf (runActions env (startState url) es) = r :: rest →
        extract env url es = r
      ∧ (runPage env (startState url) es).settled = true
      ∧ (runPage env (startState url) es).result = r) := by
  constructor
  · intro hnone
    simp [extract, hnone]
  · intro r rest hr
    have hmem : r ∈ emitsOf (runActions env (startState url) es) := by
      rw [hr]; exact List.mem_cons_self r rest
    have hfin := runActions_emit_final env es (startState url) r hmem
    exact ⟨by simp [extract, hr], hfin.1, hfin.2⟩

/-- Witness for C10 at a concrete input: with no deliveries at all, nothing is
emitted and the fallback result is returned. -/
theorem extract_total_fallback_witness :
    emitsOf (runActions ⟨"T", "U"⟩ (startState "http://w") []) = [] ∧
    extract ⟨"T", "U"⟩ "http://w" []
      = { url := "http://w", title := "", text := "", html := "",
          error := "Extraction failed: no result received" } :=
  ⟨rfl, (extract_total_fallback ⟨"T", "U"⟩ "http://w" []).1 rfl⟩

end QtWeb
